import Mathlib

/-!
Verification of the bmclient encrypted-store / IMAP-mailbox core.

The Go sources are shallowly embedded:
* `email.GetSequenceNumber`, `email.Mailbox` (Refresh, fetch by sequence
  number / range, SaveBitmessage, ReceiveAck) are translated from the
  `email` package source.
* the `store.Mailbox` folder operations (NextID, LastIDBySuffix,
  GetMessage, InsertMessage, DeleteMessage, ForEachMessage) are not part
  of the provided sources; they are modelled from the specification and
  each such definition is marked `Modelled from the spec`.
* `testFolder` from the store test suite is translated directly.

Machine integers are modelled as `Nat`; where the Go code narrows a
value to `uint32` the embedding takes the value modulo `2 ^ 32`.
-/

namespace Bmclient

/-- The `uint32` modulus: Go's `uint32(x)` conversion is `x % u32`. -/
def u32 : Nat := 2 ^ 32

/-- Decoded message payload data, as interpreted by the `email` package:
IMAP bookkeeping (uid, transient sequence number, flags, received date)
together with ack bytes, the ack-received marker and the payload
encoding tag. Received dates and ack bytes are abstracted as naturals
resp. lists of naturals (byte strings); only equality of these values is
ever used by the embedded code. -/
structure Bitmessage where
  uid : Nat
  sequenceNumber : Nat
  flags : Nat
  dateReceived : Nat
  ack : List Nat
  ackReceived : Bool
  encoding : Nat
  deriving Repr, DecidableEq

/-- A stored payload: either the serialization of a decodable
`Bitmessage` or undecodable junk bytes (abstracted by a tag). -/
inductive Payload where
  | good (b : Bitmessage)
  | bad (junk : Nat)
  deriving Repr, DecidableEq

/-- `email.DecodeBitmessage`: succeeds exactly on serialized messages. -/
def DecodeBitmessage : Payload → Option Bitmessage
  | .good b => some b
  | .bad _ => none

/-- `Bitmessage.Serialize`: the inverse boundary of `DecodeBitmessage`. -/
def serializeBm (b : Bitmessage) : Payload := .good b

/-- Equality of `Except` results is decidable (needed to evaluate the
embedded fallible operations on concrete inputs). -/
instance {ε α : Type} [DecidableEq ε] [DecidableEq α] : DecidableEq (Except ε α)
  | .error a, .error b =>
    if h : a = b then .isTrue (by rw [h]) else
      .isFalse (fun hh => h ((Except.error.injEq _ _).mp hh))
  | .error _, .ok _ => .isFalse (fun hh => Except.noConfusion hh)
  | .ok _, .error _ => .isFalse (fun hh => Except.noConfusion hh)
  | .ok a, .ok b =>
    if h : a = b then .isTrue (by rw [h]) else
      .isFalse (fun hh => h ((Except.ok.injEq _ _).mp hh))

/-- The inner loop of `email.GetSequenceNumber`:
`for i, u := range uids { if u > uid { return uint32(i + 1) };
 if uid == u { return uint32(i + 1) } }; return 0`. -/
def seqLoop : List Nat → Nat → Nat → Nat
  | [], _, _ => 0
  | u :: rest, uid, i =>
    if u > uid then (i + 1) % u32
    else if uid = u then (i + 1) % u32
    else seqLoop rest uid (i + 1)

/-- `email.GetSequenceNumber uids uid` (the result is a `uint32`). -/
def GetSequenceNumber (uids : List Nat) (uid : Nat) : Nat :=
  if uids.length = 0 then 0 else seqLoop uids uid 0

/-! ### The `store.Mailbox` folder (modelled from the spec)

The bmclient `store` package itself is not among the provided sources
(only its tests are), so the folder operations used by `email.Mailbox`
are modelled from the specification, section 4.2. Entries are kept as a
list ascending in id; `nextID` is the next-id bound. -/

/-- A stored folder entry: id, suffix tag, payload bytes. -/
structure Entry where
  id : Nat
  suffix : Nat
  payload : Payload
  deriving Repr, DecidableEq

/-- Errors of the store layer. -/
inductive StoreErr where
  | notFound
  | invalidID
  | duplicateID
  | decryptionFailed
  deriving Repr, DecidableEq

/-- Modelled from the spec: a folder of the encrypted store, an ordered
id-addressed container of (suffix, payload) entries with monotonic id
allocation. `entries` is kept ascending in id; `nextID` is the advisory
next-id bound. -/
structure StoreMailbox where
  entries : List Entry
  nextID : Nat
  deriving Repr, DecidableEq

/-- Find the entry with the given id, if present. -/
def lookupEntry (entries : List Entry) (id : Nat) : Option Entry :=
  entries.find? (fun e => e.id = id)

/-- Insert an entry into an id-ascending entry list, keeping the order. -/
def insertEntry : List Entry → Entry → List Entry
  | [], e => [e]
  | x :: xs, e => if e.id < x.id then e :: x :: xs else x :: insertEntry xs e

/-- Modelled from the spec: `Folder.LastIDBySuffix s` is the highest id
among entries tagged `s`, or NotFound (here `none`) if no entry carries
`s`. -/
def lastIDBySuffix (mbox : StoreMailbox) (s : Nat) : Option Nat :=
  match (mbox.entries.filter (fun e => e.suffix = s)).map Entry.id with
  | [] => none
  | x :: xs => some (xs.foldl max x)

/-- Modelled from the spec: `Folder.GetMessage id` returns the suffix and
payload at `id`; InvalidID for id 0 or out-of-range, NotFound for
in-range-but-absent. -/
def getMessage (mbox : StoreMailbox) (id : Nat) : Except StoreErr (Nat × Payload) :=
  if id = 0 ∨ mbox.nextID ≤ id then .error .invalidID
  else
    match lookupEntry mbox.entries id with
    | none => .error .notFound
    | some e => .ok (e.suffix, e.payload)

/-- Modelled from the spec: `Folder.DeleteMessage id`; InvalidID for id 0
or out-of-range, NotFound for in-range-but-absent. -/
def deleteMessage (mbox : StoreMailbox) (id : Nat) : Except StoreErr StoreMailbox :=
  if id = 0 ∨ mbox.nextID ≤ id then .error .invalidID
  else
    match lookupEntry mbox.entries id with
    | none => .error .notFound
    | some _ =>
      .ok { mbox with entries := mbox.entries.eraseP (fun e => e.id = id) }

/-- Modelled from the spec: `store.Mailbox.InsertMessage payload id
suffix` (combined signature, as called by the `email` package). With
`id = 0` it appends at the next id and advances the bound; with a
nonzero explicit id it fails InvalidID when `id ≥` the next-id bound and
DuplicateID when the id is occupied, and otherwise inserts at `id`. It
returns the id the store assigned. -/
def insertMessage (mbox : StoreMailbox) (payload : Payload) (id suffix : Nat) :
    Except StoreErr (Nat × StoreMailbox) :=
  if id = 0 then
    .ok (mbox.nextID,
      { entries := insertEntry mbox.entries ⟨mbox.nextID, suffix, payload⟩,
        nextID := mbox.nextID + 1 })
  else if mbox.nextID ≤ id then .error .invalidID
  else
    match lookupEntry mbox.entries id with
    | some _ => .error .duplicateID
    | none =>
      .ok (id, { mbox with entries := insertEntry mbox.entries ⟨id, suffix, payload⟩ })

/-- Whether an entry id lies in the `[low, high]` window of a
`ForEachMessage` scan; a zero bound means unbounded. -/
def inScanRange (low high id : Nat) : Bool :=
  (low = 0 || low ≤ id) && (high = 0 || id ≤ high)

/-- Modelled from the spec: `Folder.ForEachMessage low high suffix f`,
an ascending-order enumeration over `[low, high]` (0 = unbounded)
filtered by suffix. The visitor threads a state `σ` (the Go closure
variables) and may return an error `ε`, which stops the enumeration;
the state reached so far is returned together with the error, if any. -/
def forEachMessage {σ ε : Type} (entries : List Entry) (low high suffix : Nat)
    (f : Nat → Nat → Payload → σ → σ × Option ε) (s : σ) : σ × Option ε :=
  match entries with
  | [] => (s, none)
  | e :: rest =>
    if inScanRange low high e.id ∧ e.suffix = suffix then
      match f e.id e.suffix e.payload s with
      | (s₁, some err) => (s₁, some err)
      | (s₁, none) => forEachMessage rest low high suffix f s₁
    else forEachMessage rest low high suffix f s

/-! ### The `email.Mailbox` cache and operations (translated from the
`email` package source). -/

/-- `types.FlagSeen` and `types.FlagRecent` of the imap-server library. -/
def FlagSeen : Nat := 1

/-- The Recent flag bit. -/
def FlagRecent : Nat := 32

/-- `types.Flags.HasFlags`: all bits of `f` are set in `flags`. -/
def hasFlags (flags f : Nat) : Bool := flags &&& f = f

/-- Errors reported by the `email.Mailbox` operations. -/
inductive MboxErr where
  | decodeFailed (id : Nat)
  | invalidSequence
  | invalidUID
  | immutableField
  | unsupportedEncoding
  | store (e : StoreErr)
  deriving Repr, DecidableEq

/-- The cached fields of `email.Mailbox`: ascending uid list, recent and
unseen counts, next-uid hint and last-uid (`uint32` fields are kept
reduced modulo `2 ^ 32`). -/
structure MailboxState where
  uids : List Nat
  numRecent : Nat
  numUnseen : Nat
  nextUID : Nat
  lastUID : Nat
  deriving Repr, DecidableEq

/-- `Mailbox.messages`: `uint32(len(box.uids))`. -/
def messages (box : MailboxState) : Nat := box.uids.length % u32

/-- `Mailbox.decodeBitmessageForImap`: decode a payload and overwrite the
uid and sequence number of the result; `none` when decoding fails (the
failure is logged and swallowed). -/
def decodeBitmessageForImap (uid seqno : Nat) (msg : Payload) : Option Bitmessage :=
  match DecodeBitmessage msg with
  | none => none
  | some b => some { b with uid := uid, sequenceNumber := seqno }

/-- The visitor state of `Mailbox.Refresh`: recent count, unseen count
and the collected id list. -/
structure RefreshScan where
  recent : Nat
  unseen : Nat
  ids : List Nat
  deriving Repr, DecidableEq

/-- The `ForEachMessage` visitor of `Mailbox.Refresh`: an undecodable
entry makes the visitor return the logging error, which aborts the scan;
otherwise the counters are updated and the id is collected. -/
def refreshVisitor (id _suffix : Nat) (msg : Payload) (s : RefreshScan) :
    RefreshScan × Option MboxErr :=
  match DecodeBitmessage msg with
  | none => (s, some (.decodeFailed id))
  | some entry =>
    ({ recent := s.recent + (if hasFlags entry.flags FlagRecent then 1 else 0),
       unseen := s.unseen + (if hasFlags entry.flags FlagSeen then 0 else 1),
       ids := s.ids ++ [id] }, none)

/-- `Mailbox.Refresh`: recompute next-uid from `Folder.NextID`, last-uid
from `Folder.LastIDBySuffix 2` (falling back to next-uid when that
reports NotFound), then rescan all suffix-2 entries rebuilding the uid
list and the recent/unseen counters. A scan error is propagated. (In Go
the fields are mutated in place, so a failing Refresh leaves the cache
partially updated; no claim below inspects the cache after a failed
Refresh, so the error result carries no state.) -/
def refresh (box : MailboxState) (mbox : StoreMailbox) : Except MboxErr MailboxState :=
  let nextUID := mbox.nextID % u32
  let lastUID :=
    match lastIDBySuffix mbox 2 with
    | none => nextUID
    | some v => v % u32
  match forEachMessage mbox.entries 0 0 2 refreshVisitor ⟨0, 0, []⟩ with
  | (_, some err) => .error err
  | (scan, none) =>
    .ok { uids := scan.ids, numRecent := scan.recent % u32,
          numUnseen := scan.unseen % u32, nextUID := nextUID, lastUID := lastUID }

/-- `Mailbox.bmsgByUID`: fetch the payload at `uid` from the folder,
reject a missing entry or a suffix other than 2, compute the sequence
number of the uid and decode. -/
def bmsgByUID (box : MailboxState) (mbox : StoreMailbox) (uid : Nat) : Option Bitmessage :=
  match getMessage mbox uid with
  | .error _ => none
  | .ok (suffix, msg) =>
    if suffix ≠ 2 then none
    else decodeBitmessageForImap uid (GetSequenceNumber box.uids uid) msg

/-- A Go function result that may instead be a runtime panic (an
out-of-bounds slice index). `value none` is a `nil` return. -/
inductive PanicOr (α : Type) where
  | panics
  | value (a : Option α)
  deriving Repr, DecidableEq

/-- `Mailbox.BitmessageBySequenceNumber`: reject a sequence number
outside `[1, messages]` before touching the store, then fetch the uid at
0-based index `seqno - 1` of the cached uid list. -/
def bitmessageBySequenceNumber (box : MailboxState) (mbox : StoreMailbox)
    (seqno : Nat) : PanicOr Bitmessage :=
  if seqno < 1 ∨ messages box < seqno then .value none
  else
    match box.uids.get? (seqno - 1) with
    | none => .panics
    | some uid => .value (bmsgByUID box mbox uid)

/-- The `ForEachMessage` visitor of `Mailbox.getRange`: an entry that
does not decode is skipped (logged inside `decodeBitmessageForImap`) and
the scan continues; a decoded entry is appended with the next running
sequence number. The visitor never returns an error. -/
def getRangeVisitor (startSequence : Nat) (id _suffix : Nat) (msg : Payload)
    (s : List Bitmessage × Nat) : (List Bitmessage × Nat) × Option Empty :=
  match decodeBitmessageForImap id (startSequence + s.2) msg with
  | none => (s, none)
  | some bm => ((s.1 ++ [bm], s.2 + 1), none)

/-- `Mailbox.getRange`: scan the suffix-2 entries with ids in
`[startUID, endUID]` (0 = unbounded), collecting the decodable ones with
running sequence numbers from `startSequence`. The Go error branch is
unreachable because the visitor never fails. -/
def getRange (box : MailboxState) (mbox : StoreMailbox)
    (startUID endUID startSequence endSequence : Nat) : List Bitmessage :=
  match forEachMessage mbox.entries startUID endUID 2
      (getRangeVisitor startSequence) ([], 0) with
  | (s, none) => s.1
  | (_, some e) => e.elim

/-- `Mailbox.getSince`: all suffix-2 entries with id `≥ startUID`. -/
def getSince (box : MailboxState) (mbox : StoreMailbox)
    (startUID startSequence : Nat) : List Bitmessage :=
  getRange box mbox startUID 0 startSequence (messages box)

/-- `Mailbox.BitmessagesBySequenceRange`: after the bounds check the Go
code reads `box.uids[start]` and `box.uids[end]` — the 0-based indices
equal to the 1-based sequence numbers — and panics when `end` equals the
message count. -/
def bitmessagesBySequenceRange (box : MailboxState) (mbox : StoreMailbox)
    (start stop : Nat) : PanicOr (List Bitmessage) :=
  if start < 1 ∨ messages box < start ∨ stop < 1 ∨ messages box < stop ∨ stop < start then
    .value none
  else
    match box.uids.get? start, box.uids.get? stop with
    | some startUID, some endUID =>
      .value (some (getRange box mbox startUID endUID start stop))
    | _, _ => .panics

/-- The outcome of `Mailbox.SaveBitmessage`: the error if any, the saved
message (whose uid field the Go code mutates in place), and the mailbox
cache and folder as left behind. On an error the fields hold the state
at the point of failure, mirroring the in-place mutations of the Go
code. -/
structure SaveResult where
  err : Option MboxErr
  msg : Bitmessage
  box : MailboxState
  mbox : StoreMailbox
  deriving Repr, DecidableEq

/-- The second half of `Mailbox.SaveBitmessage`, from "Generate the new
version of the message" on: serialize, insert (at the carried uid, or
auto-assigned when it is zero), update the uid to the id the store
assigned, and finish with `Refresh`. -/
def saveBitmessageCont (box : MailboxState) (mbox : StoreMailbox) (msg : Bitmessage) :
    SaveResult :=
  match insertMessage mbox (serializeBm msg) msg.uid msg.encoding with
  | .error e => ⟨some (.store e), msg, box, mbox⟩
  | .ok (newUID, mbox₂) =>
    let msg₂ := { msg with uid := newUID }
    match refresh box mbox₂ with
    | .error e => ⟨some e, msg₂, box, mbox₂⟩
    | .ok box₂ => ⟨none, msg₂, box₂, mbox₂⟩

/-- `Mailbox.SaveBitmessage`: when the message carries a nonzero uid the
previously stored version must be retrievable (else "Invalid sequence
number"), carry the same uid (dead check, else "Invalid uid") and the
same received date (else "Cannot change date received"); then the old
version is deleted and the new version inserted and refreshed via
`saveBitmessageCont`. -/
def saveBitmessage (box : MailboxState) (mbox : StoreMailbox) (msg : Bitmessage) :
    SaveResult :=
  if msg.uid ≠ 0 then
    match bmsgByUID box mbox msg.uid with
    | none => ⟨some .invalidSequence, msg, box, mbox⟩
    | some previous =>
      if previous.uid ≠ msg.uid then ⟨some .invalidUID, msg, box, mbox⟩
      else if previous.dateReceived ≠ msg.dateReceived then
        ⟨some .immutableField, msg, box, mbox⟩
      else
        match deleteMessage mbox msg.uid with
        | .error e => ⟨some (.store e), msg, box, mbox⟩
        | .ok mbox₁ => saveBitmessageCont box mbox₁ msg
  else saveBitmessageCont box mbox msg

/-- The two reasons the `ReceiveAck` scan stops early: the decode error
of an undecodable entry (propagated to `ForEachMessage` and then
discarded), or the sentinel `errAckFound` after a match. -/
inductive AckStop where
  | decodeErr
  | ackFound
  deriving Repr, DecidableEq

/-- The `ForEachMessage` visitor of `Mailbox.ReceiveAck`: a decode
failure is returned as an error (stopping the scan); an entry whose ack
bytes equal the payload is recorded in the closure variable and the scan
is stopped with `errAckFound`. -/
def ackScanVisitor (ack : List Nat) (id _suffix : Nat) (msg : Payload)
    (s : Option Bitmessage) : Option Bitmessage × Option AckStop :=
  match DecodeBitmessage msg with
  | none => (s, some .decodeErr)
  | some entry => if entry.ack = ack then (some entry, some .ackFound) else (s, none)

/-- The match found by the `ReceiveAck` scan, if any: the first decoded
suffix-2 entry with equal ack bytes, unless an undecodable suffix-2
entry is hit first. -/
def ackScan (mbox : StoreMailbox) (ack : List Nat) : Option Bitmessage :=
  (forEachMessage mbox.entries 0 0 2 (ackScanVisitor ack) none).1

/-- `Mailbox.ReceiveAck`: scan for a message whose ack bytes equal the
given payload; the scan error, if any, is discarded. On a match, set its
ack-received flag and persist it with `SaveBitmessage`, whose error is
also discarded; the match is returned in every case. -/
def receiveAck (box : MailboxState) (mbox : StoreMailbox) (ack : List Nat) :
    Option Bitmessage × MailboxState × StoreMailbox :=
  match ackScan mbox ack with
  | none => (none, box, mbox)
  | some m =>
    let r := saveBitmessage box mbox { m with ackReceived := true }
    (some r.msg, r.box, r.mbox)

/-! ### `testFolder` (translated from the store test suite). -/

/-- The `message` record of the store tests; a `none` payload models a
nil byte slice. -/
structure TFMessage where
  payload : Option (List Nat)
  suffix : Nat
  deriving Repr, DecidableEq

/-- Errors returned by the `testFolder` operations. -/
inductive TFErr where
  | invalidID
  | notFound
  | duplicateID
  | nilMessage
  deriving Repr, DecidableEq

/-- `testFolder`: the in-memory reference folder of the store tests,
with its next auto-assigned index and its id-keyed message map
(modelled as an association list with distinct keys). -/
structure TestFolder where
  nextIndex : Nat
  messages : List (Nat × TFMessage)
  deriving Repr, DecidableEq

/-- Look up the message map. -/
def tfLookup (m : List (Nat × TFMessage)) (id : Nat) : Option TFMessage :=
  (m.find? (fun p => p.1 = id)).map Prod.snd

/-- `testFolder.InsertNewMessage`: reject a nil payload, otherwise store
at `nextIndex`, return that id and advance `nextIndex`. -/
def tfInsertNewMessage (f : TestFolder) (msg : Option (List Nat)) (suffix : Nat) :
    Except TFErr (Nat × TestFolder) :=
  match msg with
  | none => .error .nilMessage
  | some _ =>
    .ok (f.nextIndex,
      { nextIndex := f.nextIndex + 1,
        messages := (f.nextIndex, ⟨msg, suffix⟩) :: f.messages })

/-- `testFolder.InsertMessage` (explicit id): InvalidID for id 0 or
`id ≥ nextIndex`, then the nil-payload check, then DuplicateID for an
occupied id. -/
def tfInsertMessage (f : TestFolder) (id : Nat) (msg : Option (List Nat))
    (suffix : Nat) : Except TFErr TestFolder :=
  if id = 0 ∨ f.nextIndex ≤ id then .error .invalidID
  else
    match msg with
    | none => .error .nilMessage
    | some _ =>
      match tfLookup f.messages id with
      | some _ => .error .duplicateID
      | none => .ok { f with messages := (id, ⟨msg, suffix⟩) :: f.messages }

/-- `testFolder.GetMessage`: NotFound — not InvalidID — for id 0 or
`id ≥ nextIndex`, and NotFound for an absent id. -/
def tfGetMessage (f : TestFolder) (id : Nat) : Except TFErr (Nat × Option (List Nat)) :=
  if id = 0 ∨ f.nextIndex ≤ id then .error .notFound
  else
    match tfLookup f.messages id with
    | none => .error .notFound
    | some m => .ok (m.suffix, m.payload)

/-- `testFolder.DeleteMessage`: InvalidID for id 0 or `id ≥ nextIndex`,
NotFound for an absent id, otherwise remove the entry. -/
def tfDeleteMessage (f : TestFolder) (id : Nat) : Except TFErr TestFolder :=
  if id = 0 ∨ f.nextIndex ≤ id then .error .invalidID
  else
    match tfLookup f.messages id with
    | none => .error .notFound
    | some _ => .ok { f with messages := f.messages.eraseP (fun p => p.1 = id) }

/-- An insert or delete operation on a `testFolder`. -/
inductive FolderOp where
  | insertNew (msg : Option (List Nat)) (suffix : Nat)
  | insertAt (id : Nat) (msg : Option (List Nat)) (suffix : Nat)
  | delete (id : Nat)
  deriving Repr, DecidableEq

/-- Apply one operation; the second component is the id the operation
allocated (occupied), if any. A failed operation leaves the folder
unchanged and allocates nothing. -/
def applyOp (f : TestFolder) : FolderOp → TestFolder × Option Nat
  | .insertNew msg suffix =>
    match tfInsertNewMessage f msg suffix with
    | .error _ => (f, none)
    | .ok (id, f₁) => (f₁, some id)
  | .insertAt id msg suffix =>
    match tfInsertMessage f id msg suffix with
    | .error _ => (f, none)
    | .ok f₁ => (f₁, some id)
  | .delete id =>
    match tfDeleteMessage f id with
    | .error _ => (f, none)
    | .ok f₁ => (f₁, none)

/-- Run a sequence of operations, collecting every id allocated along
the way (also those whose entry is later deleted). -/
def runOps (f : TestFolder) : List FolderOp → TestFolder × List Nat
  | [] => (f, [])
  | op :: rest =>
    let (f₁, alloc) := applyOp f op
    let (f₂, ids) := runOps f₁ rest
    (f₂, (match alloc with | none => [] | some id => [id]) ++ ids)

/-! ### The encrypted store sessions (modelled from the spec).

The `store.Open` / `Close` / `ChangePassphrase` implementation is not
among the provided sources (only its tests are); the passphrase
behaviour is modelled from the specification, section 4.1. -/

/-- Modelled from the spec: the persisted store file — all content is
encrypted under a key derived from one passphrase. The contents
(folders, counters) are abstracted as one value. -/
structure StoreFile where
  passphrase : List Nat
  contents : Nat
  deriving Repr, DecidableEq

/-- An open store session: the key in use and the decrypted contents. -/
structure StoreSession where
  passphrase : List Nat
  contents : Nat
  deriving Repr, DecidableEq

/-- Modelled from the spec: `store.Open path pass` opens or creates the
file-backed store; it returns DecryptionFailed if content exists but the
passphrase does not unlock it. -/
def openStore (file : Option StoreFile) (pass : List Nat) :
    Except StoreErr StoreSession :=
  match file with
  | none => .ok ⟨pass, 0⟩
  | some f =>
    if f.passphrase = pass then .ok ⟨pass, f.contents⟩
    else .error .decryptionFailed

/-- Modelled from the spec: `ChangePassphrase new` re-encrypts the whole
store under the new key. -/
def changePassphrase (s : StoreSession) (newPass : List Nat) : StoreSession :=
  { s with passphrase := newPass }

/-- Modelled from the spec: `Close` flushes the session to the file. -/
def closeStore (s : StoreSession) : StoreFile := ⟨s.passphrase, s.contents⟩

/-- The entries a range scan is expected to deliver: those in the id
window, carrying suffix 2, whose payload decodes. -/
def decodableInRange (entries : List Entry) (low high : Nat) : List Entry :=
  entries.filter
    (fun e => inScanRange low high e.id && (e.suffix == 2) && (DecodeBitmessage e.payload).isSome)

/-! ## Theorems -/

theorem seqLoop_all_lt (l : List Nat) (uid i : Nat) (h : ∀ u ∈ l, u < uid) :
    seqLoop l uid i = 0 := by
  induction l generalizing i with
  | nil => rfl
  | cons u rest ih =>
    have hu : u < uid := h u (List.mem_cons_self u rest)
    have h1 : ¬ u > uid := by omega
    have h2 : ¬ uid = u := by omega
    simp only [seqLoop, if_neg h1, if_neg h2]
    exact ih (i + 1) fun v hv => h v (List.mem_cons_of_mem u hv)

theorem seqLoop_found (l₁ : List Nat) (u₀ : Nat) (l₂ : List Nat) (uid i : Nat)
    (h : ∀ u ∈ l₁, u < uid) (h₀ : uid ≤ u₀) :
    seqLoop (l₁ ++ u₀ :: l₂) uid i = (i + l₁.length + 1) % u32 := by
  induction l₁ generalizing i with
  | nil =>
    simp only [List.nil_append, seqLoop, List.length_nil]
    rcases Nat.lt_or_ge uid u₀ with hlt | hge
    · rw [if_pos hlt]
    · have he : uid = u₀ := Nat.le_antisymm h₀ hge
      have h1 : ¬ u₀ > uid := by omega
      rw [if_neg h1, if_pos he]
  | cons u rest ih =>
    have hu : u < uid := h u (List.mem_cons_self u rest)
    have h1 : ¬ u > uid := by omega
    have h2 : ¬ uid = u := by omega
    simp only [List.cons_append, List.append_eq, seqLoop, if_neg h1, if_neg h2,
      List.length_cons]
    rw [ih (i + 1) fun v hv => h v (List.mem_cons_of_mem u hv)]
    congr 1
    omega

theorem seqLoop_eq_zero_iff (l : List Nat) (uid i : Nat) (hlen : i + l.length < u32) :
    (seqLoop l uid i = 0 ↔ ∀ u ∈ l, u < uid) := by
  induction l generalizing i with
  | nil => simp [seqLoop]
  | cons u rest ih =>
    simp only [List.length_cons] at hlen
    constructor
    · intro h0 v hv
      by_cases h1 : u > uid
      · simp only [seqLoop, if_pos h1] at h0
        rw [Nat.mod_eq_of_lt (by omega)] at h0
        omega
      · by_cases h2 : uid = u
        · simp only [seqLoop, if_neg h1, if_pos h2] at h0
          rw [Nat.mod_eq_of_lt (by omega)] at h0
          omega
        · have hu : u < uid := by omega
          simp only [seqLoop, if_neg h1, if_neg h2] at h0
          rcases List.mem_cons.mp hv with hv0 | hvr
          · omega
          · exact ((ih (i + 1) (by omega)).mp h0) v hvr
    · intro hall
      have hu : u < uid := hall u (List.mem_cons_self u rest)
      have h1 : ¬ u > uid := by omega
      have h2 : ¬ uid = u := by omega
      simp only [seqLoop, if_neg h1, if_neg h2]
      exact (ih (i + 1) (by omega)).mpr fun v hv => hall v (List.mem_cons_of_mem u hv)

/-- Claim C2 (amended): for an ascending duplicate-free uid list of fewer
than `2 ^ 32` elements, `GetSequenceNumber` returns the 1-based position
of the first list element that is `≥ uid`, and it returns `0` iff the
list is empty or the uid strictly exceeds every element. (For lists with
at least `2 ^ 32` elements the `uint32` return value wraps, see the
counterexample.) -/
theorem GetSequenceNumber_spec (uids : List Nat) (uid : Nat)
    (hs : List.Sorted (· < ·) uids) (hlen : uids.length < u32) :
    (∀ i, (hi : i < uids.length) →
      (∀ u ∈ uids.take i, u < uid) → uid ≤ uids.get ⟨i, hi⟩ →
      GetSequenceNumber uids uid = i + 1)
    ∧ (GetSequenceNumber uids uid = 0 ↔ uids = [] ∨ ∀ u ∈ uids, u < uid) := by
  constructor
  · intro i hi hfront hge
    have hsplit : uids = uids.take i ++ uids.get ⟨i, hi⟩ :: uids.drop (i + 1) := by
      conv_lhs => rw [← List.take_append_drop i uids]
      rw [List.drop_eq_get_cons hi]
    have hlen0 : uids.length ≠ 0 := by omega
    have htake : (uids.take i).length = i := by
      rw [List.length_take]
      omega
    unfold GetSequenceNumber
    rw [if_neg hlen0]
    conv_lhs => rw [hsplit]
    rw [seqLoop_found (uids.take i) (uids.get ⟨i, hi⟩) (uids.drop (i + 1)) uid 0 hfront hge]
    rw [htake, Nat.zero_add, Nat.mod_eq_of_lt (by omega)]
  · rcases Nat.eq_zero_or_pos uids.length with h0 | hpos
    · have : uids = [] := List.eq_nil_of_length_eq_zero h0
      subst this
      simp [GetSequenceNumber]
    · have hlen0 : uids.length ≠ 0 := by omega
      have hne : uids ≠ [] := by
        intro h
        subst h
        simp at hpos
      unfold GetSequenceNumber
      rw [if_neg hlen0]
      rw [seqLoop_eq_zero_iff uids uid 0 (by omega)]
      constructor
      · intro h
        exact Or.inr h
      · intro h
        rcases h with h | h
        · exact absurd h hne
        · exact h

/-- Witness for C2: in the list `[2, 5]` the first element `≥ 3` is `5`,
at 1-based position `2`. -/
theorem GetSequenceNumber_spec_witness : GetSequenceNumber [2, 5] 3 = 1 + 1 :=
  (GetSequenceNumber_spec [2, 5] 3 (by decide) (by decide)).1 1 (by decide)
    (by decide) (by decide)

/-- Counterexample to C2 as stated: the ascending duplicate-free list
`[1, 2, …, 2 ^ 32]` contains an element `≥ 2 ^ 32` (namely its last
element, `2 ^ 32` itself, at 1-based position `2 ^ 32`), yet
`GetSequenceNumber` returns `0` because the `uint32` result `2 ^ 32`
wraps to `0`; so the returned value is not the 1-based position of the
first element `≥ uid`, and the returns-0-iff characterization fails. -/
theorem GetSequenceNumber_truncation_cex :
    List.Sorted (· < ·) (List.range' 1 u32) ∧ List.range' 1 u32 ≠ [] ∧
      2 ^ 32 ∈ List.range' 1 u32 ∧
      GetSequenceNumber (List.range' 1 u32) (2 ^ 32) = 0 := by
  refine ⟨?_, ?_, ?_, ?_⟩
  · exact List.pairwise_lt_range' 1 u32
  · intro h
    have := congrArg List.length h
    rw [List.length_range'] at this
    simp [u32] at this
  · rw [List.mem_range'_1]
    constructor
    · exact Nat.one_le_two_pow
    · show 2 ^ 32 < 1 + u32
      norm_num [u32]
  · have hsplit : List.range' 1 u32 = List.range' 1 (u32 - 1) ++ [1 + 1 * (u32 - 1)] := by
      have h1 : u32 = (u32 - 1) + 1 := by
        have : (0:Nat) < u32 := by norm_num [u32]
        omega
      conv_lhs => rw [h1]
      exact List.range'_concat 1 (u32 - 1)
    have hone : 1 + 1 * (u32 - 1) = 2 ^ 32 := by
      have : (0:Nat) < u32 := by norm_num [u32]
      simp only [Nat.one_mul]
      unfold u32 at this ⊢
      omega
    unfold GetSequenceNumber
    rw [if_neg (by rw [List.length_range']; simp [u32])]
    rw [hsplit, hone]
    rw [seqLoop_found (List.range' 1 (u32 - 1)) (2 ^ 32) [] (2 ^ 32) 0 ?_ (Nat.le_refl _)]
    · rw [List.length_range']
      have h0 : (0:Nat) < u32 := by norm_num [u32]
      have : 0 + (u32 - 1) + 1 = u32 := by omega
      rw [this, Nat.mod_self]
    · intro u hu
      rw [List.mem_range'_1] at hu
      have : u < 1 + (u32 - 1) := hu.2
      have h0 : (0:Nat) < u32 := by norm_num [u32]
      show u < 2 ^ 32
      unfold u32 at *
      omega

/-- Counterexample to C5 as stated: on a fresh folder (next-id bound 1)
`GetMessage 0` fails NotFound, not InvalidID as the claim requires. -/
theorem tfGetMessage_zero_cex :
    tfGetMessage ⟨1, []⟩ 0 = .error .notFound ∧
      tfGetMessage ⟨1, []⟩ 0 ≠ .error .invalidID := by
  decide

/-- Claim C5 (amended): `DeleteMessage` fails InvalidID iff `id = 0` or
`id ≥ NextID`, and NotFound iff `id ∈ [1, NextID)` and the id is absent;
`GetMessage` never fails InvalidID — it fails NotFound iff `id = 0` or
`id ≥ NextID` or the id is absent. -/
theorem tf_error_taxonomy (f : TestFolder) (id : Nat) :
    (tfDeleteMessage f id = .error .invalidID ↔ id = 0 ∨ f.nextIndex ≤ id)
    ∧ (tfDeleteMessage f id = .error .notFound ↔
        (1 ≤ id ∧ id < f.nextIndex ∧ tfLookup f.messages id = none))
    ∧ (tfGetMessage f id = .error .notFound ↔
        (id = 0 ∨ f.nextIndex ≤ id ∨ tfLookup f.messages id = none))
    ∧ (∀ e, tfGetMessage f id = .error e → e = .notFound) := by
  by_cases h : id = 0 ∨ f.nextIndex ≤ id
  · have hd : tfDeleteMessage f id = .error .invalidID := by
      unfold tfDeleteMessage
      rw [if_pos h]
    have hg : tfGetMessage f id = .error .notFound := by
      unfold tfGetMessage
      rw [if_pos h]
    rw [hd, hg]
    refine ⟨iff_of_true rfl h, iff_of_false (by decide) ?_, iff_of_true rfl ?_, ?_⟩
    · rintro ⟨h1, h2, -⟩
      omega
    · rcases h with h | h
      · exact Or.inl h
      · exact Or.inr (Or.inl h)
    · intro e he
      exact ((Except.error.injEq _ _).mp he).symm
  · rcases hlk : tfLookup f.messages id with _ | m
    · have hd : tfDeleteMessage f id = .error .notFound := by
        unfold tfDeleteMessage
        rw [if_neg h, hlk]
      have hg : tfGetMessage f id = .error .notFound := by
        unfold tfGetMessage
        rw [if_neg h, hlk]
      rw [hd, hg]
      refine ⟨iff_of_false (by decide) h, iff_of_true rfl ⟨by omega, by omega, rfl⟩,
        iff_of_true rfl (Or.inr (Or.inr rfl)), ?_⟩
      intro e he
      exact ((Except.error.injEq _ _).mp he).symm
    · have hd : tfDeleteMessage f id =
          .ok { f with messages := f.messages.eraseP (fun p => p.1 = id) } := by
        unfold tfDeleteMessage
        rw [if_neg h, hlk]
      have hg : tfGetMessage f id = .ok (m.suffix, m.payload) := by
        unfold tfGetMessage
        rw [if_neg h, hlk]
      rw [hd, hg]
      refine ⟨iff_of_false (fun hh => Except.noConfusion hh) h,
        iff_of_false (fun hh => Except.noConfusion hh) ?_,
        iff_of_false (fun hh => Except.noConfusion hh) ?_, ?_⟩
      · rintro ⟨-, -, hn⟩
        exact Option.noConfusion hn
      · rintro (h0 | hge | hn)
        · exact h (Or.inl h0)
        · exact h (Or.inr hge)
        · exact Option.noConfusion hn
      · intro e he
        exact Except.noConfusion he

theorem tfInsertNewMessage_ok (f : TestFolder) (msg : Option (List Nat))
    (suffix id : Nat) (f₁ : TestFolder)
    (h : tfInsertNewMessage f msg suffix = .ok (id, f₁)) :
    id = f.nextIndex ∧ f₁.nextIndex = f.nextIndex + 1 := by
  unfold tfInsertNewMessage at h
  split at h
  · exact Except.noConfusion h
  · rw [Except.ok.injEq, Prod.mk.injEq] at h
    refine ⟨h.1.symm, ?_⟩
    rw [← h.2]

theorem tfInsertMessage_ok (f : TestFolder) (id : Nat) (msg : Option (List Nat))
    (suffix : Nat) (f₁ : TestFolder) (h : tfInsertMessage f id msg suffix = .ok f₁) :
    id ≠ 0 ∧ id < f.nextIndex ∧ f₁.nextIndex = f.nextIndex := by
  unfold tfInsertMessage at h
  split at h
  · exact Except.noConfusion h
  · rename_i hc
    split at h
    · exact Except.noConfusion h
    · split at h
      · exact Except.noConfusion h
      · rw [Except.ok.injEq] at h
        refine ⟨by omega, by omega, ?_⟩
        rw [← h]

theorem tfDeleteMessage_ok (f : TestFolder) (id : Nat) (f₁ : TestFolder)
    (h : tfDeleteMessage f id = .ok f₁) : f₁.nextIndex = f.nextIndex := by
  unfold tfDeleteMessage at h
  split at h
  · exact Except.noConfusion h
  · split at h
    · exact Except.noConfusion h
    · rw [Except.ok.injEq] at h
      rw [← h]

theorem applyOp_nextIndex_mono (f : TestFolder) (op : FolderOp) :
    f.nextIndex ≤ (applyOp f op).1.nextIndex := by
  rcases op with ⟨msg, suffix⟩ | ⟨id, msg, suffix⟩ | id
  · rcases hres : tfInsertNewMessage f msg suffix with e | ⟨aid, f₁⟩
    · simp [applyOp, hres]
    · have := tfInsertNewMessage_ok f msg suffix aid f₁ hres
      simp only [applyOp, hres]
      omega
  · rcases hres : tfInsertMessage f id msg suffix with e | f₁
    · simp [applyOp, hres]
    · have := tfInsertMessage_ok f id msg suffix f₁ hres
      simp only [applyOp, hres]
      omega
  · rcases hres : tfDeleteMessage f id with e | f₁
    · simp [applyOp, hres]
    · have := tfDeleteMessage_ok f id f₁ hres
      simp only [applyOp, hres]
      omega

theorem applyOp_alloc_lt (f : TestFolder) (op : FolderOp) (id : Nat)
    (h : (applyOp f op).2 = some id) : id < (applyOp f op).1.nextIndex := by
  rcases op with ⟨msg, suffix⟩ | ⟨eid, msg, suffix⟩ | did
  · rcases hres : tfInsertNewMessage f msg suffix with e | ⟨aid, f₁⟩
    · simp [applyOp, hres] at h
    · have hok := tfInsertNewMessage_ok f msg suffix aid f₁ hres
      simp only [applyOp, hres, Option.some.injEq] at h ⊢
      omega
  · rcases hres : tfInsertMessage f eid msg suffix with e | f₁
    · simp [applyOp, hres] at h
    · have hok := tfInsertMessage_ok f eid msg suffix f₁ hres
      simp only [applyOp, hres, Option.some.injEq] at h ⊢
      omega
  · rcases hres : tfDeleteMessage f did with e | f₁
    · simp [applyOp, hres] at h
    · simp [applyOp, hres] at h

/-- Claim C8: over every sequence of insert and delete operations on a
folder, `NextID` never decreases, and every id ever allocated — also an
id whose entry has since been deleted — stays strictly below the final
`NextID`. -/
theorem nextID_monotone_exceeds_allocated (f : TestFolder) (ops : List FolderOp) :
    f.nextIndex ≤ (runOps f ops).1.nextIndex
    ∧ ∀ id ∈ (runOps f ops).2, id < (runOps f ops).1.nextIndex := by
  induction ops generalizing f with
  | nil =>
    constructor
    · exact Nat.le_refl _
    · intro id hid
      exact absurd hid (List.not_mem_nil id)
  | cons op rest ih =>
    have hmono := applyOp_nextIndex_mono f op
    rcases ih (applyOp f op).1 with ⟨ihmono, ihlt⟩
    constructor
    · show f.nextIndex ≤ (runOps (applyOp f op).1 rest).1.nextIndex
      exact Nat.le_trans hmono ihmono
    · intro id hid
      show id < (runOps (applyOp f op).1 rest).1.nextIndex
      rcases halloc : (applyOp f op).2 with _ | aid
      · simp only [runOps, halloc] at hid
        exact ihlt id hid
      · simp only [runOps, halloc, List.singleton_append, List.mem_cons] at hid
        rcases hid with rfl | hid
        · exact Nat.lt_of_lt_of_le (applyOp_alloc_lt f op id halloc) ihmono
        · exact ihlt id hid

/-- Counterexample to C7 as stated: the claim quantifies over every new
passphrase; when `ChangePassphrase` is given the *same* passphrase the
store was opened with, a subsequent `Open` with the old passphrase still
succeeds rather than failing DecryptionFailed. (The session `⟨[1], 7⟩`
is exactly what opening the file `⟨[1], 7⟩` with passphrase `[1]`
yields, as the first conjunct records.) -/
theorem changePassphrase_same_cex :
    openStore (some ⟨[1], 7⟩) [1] = .ok ⟨[1], 7⟩ ∧
      openStore (some (closeStore (changePassphrase ⟨[1], 7⟩ [1]))) [1] ≠
        .error .decryptionFailed := by
  decide

/-- Claim C7 (amended): for a store successfully opened with an old
passphrase, after `ChangePassphrase new` and `Close`, re-opening with
the new passphrase succeeds with the session contents preserved, and —
provided the new passphrase differs from the old — re-opening with the
old passphrase fails DecryptionFailed. -/
theorem changePassphrase_reopen (file : Option StoreFile) (old new : List Nat)
    (s : StoreSession) (hopen : openStore file old = .ok s) (hne : old ≠ new) :
    openStore (some (closeStore (changePassphrase s new))) new = .ok ⟨new, s.contents⟩
    ∧ openStore (some (closeStore (changePassphrase s new))) old =
        .error .decryptionFailed := by
  constructor
  · simp [openStore, closeStore, changePassphrase]
  · simp only [openStore, closeStore, changePassphrase]
    rw [if_neg]
    intro heq
    exact hne heq.symm

/-- Witness for C7: a concrete passphrase change from `[1]` to `[2]`. -/
theorem changePassphrase_reopen_witness :
    openStore (some (closeStore (changePassphrase ⟨[1], 7⟩ [2]))) [2] = .ok ⟨[2], 7⟩
    ∧ openStore (some (closeStore (changePassphrase ⟨[1], 7⟩ [2]))) [1] =
        .error .decryptionFailed :=
  changePassphrase_reopen (some ⟨[1], 7⟩) [1] [2] ⟨[1], 7⟩ (by decide) (by decide)

/-- Claim C1, behaviour of the code at the failing input: a mailbox with
one cached uid and the valid sequence-number range `start = end = 1`
makes `BitmessagesBySequenceRange` read `uids[1]` — out of bounds — so
the Go code panics instead of returning the single message. -/
theorem bitmessagesBySequenceRange_panics_cex :
    bitmessagesBySequenceRange ⟨[1], 0, 0, 2, 1⟩
      ⟨[⟨1, 2, .good ⟨0, 0, 0, 0, [], false, 2⟩⟩], 2⟩ 1 1 = .panics := by
  decide

/-- Claim C10: `BitmessageBySequenceNumber` returns nil for a sequence
number outside `[1, Messages]` without consulting the store (the result
is the same for every folder), and for one inside the interval it reads
the cached uid list exactly at index `seqno - 1`, which is in bounds,
and delegates to the uid fetch. In particular it never panics. -/
theorem bitmessageBySequenceNumber_safe (box : MailboxState) (seqno : Nat) :
    (seqno < 1 ∨ messages box < seqno →
      ∀ mbox mbox₂ : StoreMailbox,
        bitmessageBySequenceNumber box mbox seqno = .value none ∧
        bitmessageBySequenceNumber box mbox seqno =
          bitmessageBySequenceNumber box mbox₂ seqno)
    ∧ (1 ≤ seqno → seqno ≤ messages box →
      seqno - 1 < box.uids.length ∧
      ∀ mbox : StoreMailbox, ∃ uid, box.uids.get? (seqno - 1) = some uid ∧
        bitmessageBySequenceNumber box mbox seqno = .value (bmsgByUID box mbox uid)) := by
  constructor
  · intro hout mbox mbox₂
    constructor
    · unfold bitmessageBySequenceNumber
      rw [if_pos hout]
    · unfold bitmessageBySequenceNumber
      rw [if_pos hout, if_pos hout]
  · intro h1 h2
    have hmod : messages box ≤ box.uids.length := by
      unfold messages
      exact Nat.mod_le _ _
    have hidx : seqno - 1 < box.uids.length := by omega
    refine ⟨hidx, ?_⟩
    intro mbox
    refine ⟨box.uids.get ⟨seqno - 1, hidx⟩, ?_, ?_⟩
    · exact List.get?_eq_get hidx
    · unfold bitmessageBySequenceNumber
      rw [if_neg (by omega)]
      rw [List.get?_eq_get hidx]

/-- Witness for C10: the in-range case at `seqno = 1` on a one-message
mailbox, and the out-of-range case at `seqno = 2`. -/
theorem bitmessageBySequenceNumber_safe_witness :
    (1 - 1 < (⟨[9], 0, 0, 2, 9⟩ : MailboxState).uids.length ∧
      ∀ mbox : StoreMailbox, ∃ uid,
        (⟨[9], 0, 0, 2, 9⟩ : MailboxState).uids.get? (1 - 1) = some uid ∧
        bitmessageBySequenceNumber ⟨[9], 0, 0, 2, 9⟩ mbox 1 =
          .value (bmsgByUID ⟨[9], 0, 0, 2, 9⟩ mbox uid)) ∧
    (∀ mbox mbox₂ : StoreMailbox,
      bitmessageBySequenceNumber ⟨[9], 0, 0, 2, 9⟩ mbox 2 = .value none ∧
      bitmessageBySequenceNumber ⟨[9], 0, 0, 2, 9⟩ mbox 2 =
        bitmessageBySequenceNumber ⟨[9], 0, 0, 2, 9⟩ mbox₂ 2) :=
  ⟨(bitmessageBySequenceNumber_safe ⟨[9], 0, 0, 2, 9⟩ 1).2 (by decide) (by decide),
   (bitmessageBySequenceNumber_safe ⟨[9], 0, 0, 2, 9⟩ 2).1 (by decide)⟩

theorem inScanRange_zero (id : Nat) : inScanRange 0 0 id = true := rfl

theorem forEachMessage_nil {σ ε : Type} (low high suffix : Nat)
    (f : Nat → Nat → Payload → σ → σ × Option ε) (s : σ) :
    forEachMessage [] low high suffix f s = (s, none) := rfl

theorem forEachMessage_cons {σ ε : Type} (e : Entry) (rest : List Entry)
    (low high suffix : Nat) (f : Nat → Nat → Payload → σ → σ × Option ε) (s : σ) :
    forEachMessage (e :: rest) low high suffix f s =
      if inScanRange low high e.id ∧ e.suffix = suffix then
        match f e.id e.suffix e.payload s with
        | (s₁, some err) => (s₁, some err)
        | (s₁, none) => forEachMessage rest low high suffix f s₁
      else forEachMessage rest low high suffix f s := rfl

theorem getRangeScan_spec (startSeq low high : Nat) (entries : List Entry)
    (acc : List Bitmessage) (n : Nat) :
    (forEachMessage entries low high 2 (getRangeVisitor startSeq) (acc, n)).2 = none
    ∧ ((forEachMessage entries low high 2 (getRangeVisitor startSeq) (acc, n)).1.1).map
        (fun b => b.uid)
      = acc.map (fun b => b.uid) ++ (decodableInRange entries low high).map Entry.id := by
  induction entries generalizing acc n with
  | nil => simp [forEachMessage, decodableInRange]
  | cons e rest ih =>
    by_cases hc : inScanRange low high e.id ∧ e.suffix = 2
    · rcases hdec : DecodeBitmessage e.payload with _ | b
      · have hvis : getRangeVisitor startSeq e.id e.suffix e.payload (acc, n)
            = ((acc, n), none) := by
          unfold getRangeVisitor decodeBitmessageForImap
          rw [hdec]
        have hstep : forEachMessage (e :: rest) low high 2 (getRangeVisitor startSeq) (acc, n)
            = forEachMessage rest low high 2 (getRangeVisitor startSeq) (acc, n) := by
          rw [forEachMessage_cons, if_pos hc, hvis]
        have hfil : decodableInRange (e :: rest) low high = decodableInRange rest low high := by
          unfold decodableInRange
          rw [List.filter_cons, if_neg (by simp [hdec])]
        rw [hstep, hfil]
        exact ih acc n
      · have hvis : getRangeVisitor startSeq e.id e.suffix e.payload (acc, n)
            = ((acc ++ [{ b with uid := e.id, sequenceNumber := startSeq + n }], n + 1),
               none) := by
          unfold getRangeVisitor decodeBitmessageForImap
          rw [hdec]
        have hstep : forEachMessage (e :: rest) low high 2 (getRangeVisitor startSeq) (acc, n)
            = forEachMessage rest low high 2 (getRangeVisitor startSeq)
                (acc ++ [{ b with uid := e.id, sequenceNumber := startSeq + n }], n + 1) := by
          rw [forEachMessage_cons, if_pos hc, hvis]
        have hfil : decodableInRange (e :: rest) low high
            = e :: decodableInRange rest low high := by
          unfold decodableInRange
          rw [List.filter_cons, if_pos (by simp [hc.1, hc.2, hdec])]
        rw [hstep, hfil]
        rcases ih (acc ++ [{ b with uid := e.id, sequenceNumber := startSeq + n }]) (n + 1)
          with ⟨ih1, ih2⟩
        refine ⟨ih1, ?_⟩
        rw [ih2]
        simp
    · have hstep : forEachMessage (e :: rest) low high 2 (getRangeVisitor startSeq) (acc, n)
          = forEachMessage rest low high 2 (getRangeVisitor startSeq) (acc, n) := by
        rw [forEachMessage_cons, if_neg hc]
      have hfil : decodableInRange (e :: rest) low high = decodableInRange rest low high := by
        unfold decodableInRange
        rw [List.filter_cons, if_neg ?_]
        simp only [Bool.and_eq_true, beq_iff_eq]
        rintro ⟨⟨h1, h2⟩, -⟩
        exact hc ⟨h1, h2⟩
      rw [hstep, hfil]
      exact ih acc n

theorem refreshScan_err_of_bad (e : Entry) (hs : e.suffix = 2)
    (hb : DecodeBitmessage e.payload = none) (entries : List Entry) :
    ∀ s : RefreshScan, e ∈ entries →
      ∃ id, (forEachMessage entries 0 0 2 refreshVisitor s).2
        = some (MboxErr.decodeFailed id) := by
  induction entries with
  | nil =>
    intro s he
    exact absurd he (List.not_mem_nil e)
  | cons e' rest ih =>
    intro s he
    by_cases hc : inScanRange 0 0 e'.id ∧ e'.suffix = 2
    · rcases hdec : DecodeBitmessage e'.payload with _ | b
      · refine ⟨e'.id, ?_⟩
        have hvis : refreshVisitor e'.id e'.suffix e'.payload s
            = (s, some (.decodeFailed e'.id)) := by
          unfold refreshVisitor
          rw [hdec]
        rw [forEachMessage_cons, if_pos hc, hvis]
      · have hmem : e ∈ rest := by
          rcases List.mem_cons.mp he with rfl | hr
          · rw [hb] at hdec
            exact Option.noConfusion hdec
          · exact hr
        have hvis : refreshVisitor e'.id e'.suffix e'.payload s
            = ({ recent := s.recent + (if hasFlags b.flags FlagRecent then 1 else 0),
                 unseen := s.unseen + (if hasFlags b.flags FlagSeen then 0 else 1),
                 ids := s.ids ++ [e'.id] }, none) := by
          unfold refreshVisitor
          rw [hdec]
        rw [forEachMessage_cons, if_pos hc, hvis]
        exact ih _ hmem
    · have hmem : e ∈ rest := by
        rcases List.mem_cons.mp he with rfl | hr
        · exact absurd ⟨inScanRange_zero e.id, hs⟩ hc
        · exact hr
      rw [forEachMessage_cons, if_neg hc]
      exact ih s hmem

theorem refreshScan_ok_of_decodable (entries : List Entry)
    (hall : ∀ e ∈ entries, e.suffix = 2 → (DecodeBitmessage e.payload).isSome) :
    ∀ s : RefreshScan, (forEachMessage entries 0 0 2 refreshVisitor s).2 = none := by
  induction entries with
  | nil =>
    intro s
    rfl
  | cons e' rest ih =>
    intro s
    by_cases hc : inScanRange 0 0 e'.id ∧ e'.suffix = 2
    · rcases hdec : DecodeBitmessage e'.payload with _ | b
      · have := hall e' (List.mem_cons_self e' rest) hc.2
        rw [hdec] at this
        exact absurd this (by simp)
      · have hvis : refreshVisitor e'.id e'.suffix e'.payload s
            = ({ recent := s.recent + (if hasFlags b.flags FlagRecent then 1 else 0),
                 unseen := s.unseen + (if hasFlags b.flags FlagSeen then 0 else 1),
                 ids := s.ids ++ [e'.id] }, none) := by
          unfold refreshVisitor
          rw [hdec]
        rw [forEachMessage_cons, if_pos hc, hvis]
        exact ih (fun x hx => hall x (List.mem_cons_of_mem e' hx)) _
    · rw [forEachMessage_cons, if_neg hc]
      exact ih (fun x hx => hall x (List.mem_cons_of_mem e' hx)) s

theorem refresh_err_of_bad (box : MailboxState) (mbox : StoreMailbox) (e : Entry)
    (he : e ∈ mbox.entries) (hs : e.suffix = 2)
    (hb : DecodeBitmessage e.payload = none) :
    ∃ id, refresh box mbox = .error (MboxErr.decodeFailed id) := by
  obtain ⟨id, hid⟩ := refreshScan_err_of_bad e hs hb mbox.entries ⟨0, 0, []⟩ he
  refine ⟨id, ?_⟩
  unfold refresh
  rcases hfe : forEachMessage mbox.entries 0 0 2 refreshVisitor ⟨0, 0, []⟩ with ⟨s', err⟩
  rw [hfe] at hid
  simp only at hid
  rw [hid]

theorem refresh_ok_of_decodable (box : MailboxState) (mbox : StoreMailbox)
    (hall : ∀ e ∈ mbox.entries, e.suffix = 2 → (DecodeBitmessage e.payload).isSome) :
    ∃ b, refresh box mbox = .ok b := by
  have h2 := refreshScan_ok_of_decodable mbox.entries hall ⟨0, 0, []⟩
  unfold refresh
  rcases hfe : forEachMessage mbox.entries 0 0 2 refreshVisitor ⟨0, 0, []⟩ with ⟨s', err⟩
  rw [hfe] at h2
  simp only at h2
  subst h2
  exact ⟨_, rfl⟩

/-- Counterexample to C3 as stated: a folder holding a single
undecodable suffix-2 entry makes `Refresh` return the decode error —
the whole operation aborts because of that entry (the same Refresh on
the folder without the entry succeeds), while the claim requires the
entry to be skipped and the operation to carry on. -/
theorem refresh_aborts_on_bad_entry_cex :
    refresh ⟨[], 0, 0, 0, 0⟩ ⟨[⟨1, 2, .bad 0⟩], 2⟩ = .error (.decodeFailed 1)
    ∧ refresh ⟨[], 0, 0, 0, 0⟩ ⟨[], 2⟩ = .ok ⟨[], 0, 0, 2, 2⟩ := by
  constructor
  · decide
  · decide

/-- Claim C3 (amended): the three bulk scans treat an undecodable entry
differently. (i) The range scan `getRange` skips it, logs it and
continues: the scan delivers exactly the decodable suffix-2 entries of
the id window, in order. (ii) `Refresh` aborts: any undecodable
suffix-2 entry makes it return a decode error. (iii) The `ReceiveAck`
scan stops at the undecodable entry and the error is discarded: with
such an entry in front, `ReceiveAck` returns no match and leaves the
state unchanged even when a matching entry follows, and its signature
reports no error to the caller. -/
theorem bulkScan_decode_handling :
    (∀ (box : MailboxState) (mbox : StoreMailbox) (startUID endUID startSeq endSeq : Nat),
      (getRange box mbox startUID endUID startSeq endSeq).map (fun b => b.uid)
        = (decodableInRange mbox.entries startUID endUID).map Entry.id)
    ∧ (∀ (box : MailboxState) (mbox : StoreMailbox), ∀ e ∈ mbox.entries,
        e.suffix = 2 → DecodeBitmessage e.payload = none →
        ∃ id, refresh box mbox = .error (MboxErr.decodeFailed id))
    ∧ (∀ (box : MailboxState) (mbox : StoreMailbox) (ack : List Nat)
        (e : Entry) (rest : List Entry),
        mbox.entries = e :: rest → e.suffix = 2 → DecodeBitmessage e.payload = none →
        receiveAck box mbox ack = (none, box, mbox)) := by
  refine ⟨?_, ?_, ?_⟩
  · intro box mbox startUID endUID startSeq endSeq
    obtain ⟨h2, hmap⟩ := getRangeScan_spec startSeq startUID endUID mbox.entries [] 0
    unfold getRange
    rcases hfe : forEachMessage mbox.entries startUID endUID 2 (getRangeVisitor startSeq)
      ([], 0) with ⟨s', err⟩
    rw [hfe] at h2 hmap
    simp only at h2
    subst h2
    simpa using hmap
  · intro box mbox e he hs hb
    exact refresh_err_of_bad box mbox e he hs hb
  · intro box mbox ack e rest hent hs hb
    have hscan : ackScan mbox ack = none := by
      unfold ackScan
      rw [hent]
      have hvis : ackScanVisitor ack e.id e.suffix e.payload none
          = (none, some .decodeErr) := by
        unfold ackScanVisitor
        rw [hb]
      rw [forEachMessage_cons, if_pos ⟨inScanRange_zero e.id, hs⟩, hvis]
    unfold receiveAck
    rw [hscan]

/-- Witness for C3 (amended): on a folder whose first entry is
undecodable and whose second carries matching ack bytes, the range scan
still delivers the second entry, Refresh aborts, and ReceiveAck returns
no match and leaves the state unchanged. -/
theorem bulkScan_decode_handling_witness :
    (getRange ⟨[], 0, 0, 0, 0⟩ ⟨[⟨1, 2, .bad 0⟩, ⟨2, 2, .good ⟨2, 0, 0, 5, [7], false, 2⟩⟩], 3⟩
        0 0 1 2).map (fun b => b.uid)
      = (decodableInRange [⟨1, 2, .bad 0⟩, ⟨2, 2, .good ⟨2, 0, 0, 5, [7], false, 2⟩⟩] 0 0).map
          Entry.id
    ∧ (∃ id, refresh ⟨[], 0, 0, 0, 0⟩
        ⟨[⟨1, 2, .bad 0⟩, ⟨2, 2, .good ⟨2, 0, 0, 5, [7], false, 2⟩⟩], 3⟩
        = .error (MboxErr.decodeFailed id))
    ∧ receiveAck ⟨[], 0, 0, 0, 0⟩
        ⟨[⟨1, 2, .bad 0⟩, ⟨2, 2, .good ⟨2, 0, 0, 5, [7], false, 2⟩⟩], 3⟩ [7]
        = (none, ⟨[], 0, 0, 0, 0⟩,
           ⟨[⟨1, 2, .bad 0⟩, ⟨2, 2, .good ⟨2, 0, 0, 5, [7], false, 2⟩⟩], 3⟩) :=
  ⟨bulkScan_decode_handling.1 ⟨[], 0, 0, 0, 0⟩ _ 0 0 1 2,
   bulkScan_decode_handling.2.1 ⟨[], 0, 0, 0, 0⟩ _ ⟨1, 2, .bad 0⟩ (by decide) (by decide)
     (by decide),
   bulkScan_decode_handling.2.2 ⟨[], 0, 0, 0, 0⟩ _ [7] ⟨1, 2, .bad 0⟩
     [⟨2, 2, .good ⟨2, 0, 0, 5, [7], false, 2⟩⟩] (by decide) (by decide) (by decide)⟩

theorem forEachMessage_skip_all {σ ε : Type} (low high suffix : Nat)
    (f : Nat → Nat → Payload → σ → σ × Option ε) (entries : List Entry) :
    ∀ s : σ, (∀ e ∈ entries, ¬(inScanRange low high e.id ∧ e.suffix = suffix)) →
      forEachMessage entries low high suffix f s = (s, none) := by
  induction entries with
  | nil =>
    intro s h
    rfl
  | cons e rest ih =>
    intro s h
    rw [forEachMessage_cons, if_neg (h e (List.mem_cons_self e rest))]
    exact ih s (fun x hx => h x (List.mem_cons_of_mem e hx))

theorem lastIDBySuffix_none (mbox : StoreMailbox)
    (h : ∀ e ∈ mbox.entries, e.suffix ≠ 2) : lastIDBySuffix mbox 2 = none := by
  unfold lastIDBySuffix
  have hfil : mbox.entries.filter (fun e => e.suffix = 2) = [] := by
    rw [List.filter_eq_nil]
    intro a ha
    simp [h a ha]
  rw [hfil]
  rfl

/-- Claim C6: after `Refresh` on a folder with no suffix-2 (decoded
message) entries, the uid cache is empty — `Messages()` is 0 — and
last-uid falls back to next-uid, both equal to the folder's next-id
bound; when suffix-2 entries exist, `LastUID()` is the value reported by
`Folder.LastIDBySuffix 2`. -/
theorem refresh_lastUID_spec (box : MailboxState) (mbox : StoreMailbox) :
    (mbox.nextID < u32 → (∀ e ∈ mbox.entries, e.suffix ≠ 2) →
      refresh box mbox = .ok ⟨[], 0, 0, mbox.nextID, mbox.nextID⟩
      ∧ messages ⟨[], 0, 0, mbox.nextID, mbox.nextID⟩ = 0)
    ∧ (∀ v, lastIDBySuffix mbox 2 = some v → v < u32 →
        (∀ e ∈ mbox.entries, e.suffix = 2 → (DecodeBitmessage e.payload).isSome) →
        ∃ box₂, refresh box mbox = .ok box₂ ∧ box₂.lastUID = v) := by
  constructor
  · intro h32 hno
    have hscan : forEachMessage mbox.entries 0 0 2 refreshVisitor ⟨0, 0, []⟩
        = (⟨0, 0, []⟩, none) :=
      forEachMessage_skip_all 0 0 2 refreshVisitor mbox.entries ⟨0, 0, []⟩
        (fun e he hch => hno e he hch.2)
    have hlast : lastIDBySuffix mbox 2 = none := lastIDBySuffix_none mbox hno
    constructor
    · unfold refresh
      rw [hscan, hlast, Nat.mod_eq_of_lt h32]
      rfl
    · simp [messages]
  · intro v hv hv32 hdec
    have hscan := refreshScan_ok_of_decodable mbox.entries hdec ⟨0, 0, []⟩
    rcases hfe : forEachMessage mbox.entries 0 0 2 refreshVisitor ⟨0, 0, []⟩
      with ⟨s', err⟩
    rw [hfe] at hscan
    simp only at hscan
    subst hscan
    refine ⟨⟨s'.ids, s'.recent % u32, s'.unseen % u32, mbox.nextID % u32, v % u32⟩, ?_, ?_⟩
    · unfold refresh
      rw [hfe, hv]
    · show v % u32 = v
      exact Nat.mod_eq_of_lt hv32

/-- Witness for C6: a folder with no suffix-2 entries and next-id bound
5 refreshes to the empty cache with next-uid = last-uid = 5; a folder
with one suffix-2 entry at id 3 refreshes with last-uid 3. -/
theorem refresh_lastUID_spec_witness :
    (refresh ⟨[], 0, 0, 0, 0⟩ ⟨[], 5⟩ = .ok ⟨[], 0, 0, 5, 5⟩
      ∧ messages ⟨[], 0, 0, 5, 5⟩ = 0)
    ∧ (∃ box₂, refresh ⟨[], 0, 0, 0, 0⟩ ⟨[⟨3, 2, .good ⟨3, 0, 0, 0, [], false, 2⟩⟩], 5⟩
        = .ok box₂ ∧ box₂.lastUID = 3) :=
  ⟨(refresh_lastUID_spec ⟨[], 0, 0, 0, 0⟩ ⟨[], 5⟩).1 (by decide) (by decide),
   (refresh_lastUID_spec ⟨[], 0, 0, 0, 0⟩ ⟨[⟨3, 2, .good ⟨3, 0, 0, 0, [], false, 2⟩⟩], 5⟩).2
     3 (by decide) (by decide) (by decide)⟩

theorem lookupEntry_eraseP_self (id : Nat) (entries : List Entry)
    (hnd : (entries.map Entry.id).Nodup) :
    lookupEntry (entries.eraseP (fun e => e.id = id)) id = none := by
  induction entries with
  | nil => rfl
  | cons e rest ih =>
    simp only [List.map_cons, List.nodup_cons] at hnd
    rcases hnd with ⟨hni, hndr⟩
    by_cases he : e.id = id
    · rw [List.eraseP_cons_of_pos (by simp [he])]
      unfold lookupEntry
      rw [List.find?_eq_none]
      intro x hx
      simp only [decide_eq_true_eq]
      intro hxid
      exact hni (List.mem_map.mpr ⟨x, hx, by rw [hxid, he]⟩)
    · rw [List.eraseP_cons_of_neg (by simp [he])]
      unfold lookupEntry
      rw [List.find?_cons_of_neg _ (by simp [he])]
      exact ih hndr

theorem mem_insertEntry (x e : Entry) (l : List Entry) :
    x ∈ insertEntry l e → x ∈ l ∨ x = e := by
  induction l with
  | nil =>
    intro h
    exact Or.inr (List.mem_singleton.mp h)
  | cons y ys ih =>
    intro h
    unfold insertEntry at h
    by_cases hc : e.id < y.id
    · rw [if_pos hc] at h
      rcases List.mem_cons.mp h with rfl | h2
      · exact Or.inr rfl
      · exact Or.inl h2
    · rw [if_neg hc] at h
      rcases List.mem_cons.mp h with rfl | h2
      · exact Or.inl (List.mem_cons_self x ys)
      · rcases ih h2 with h3 | h3
        · exact Or.inl (List.mem_cons_of_mem y h3)
        · exact Or.inr h3

theorem saveBitmessage_some (box : MailboxState) (mbox : StoreMailbox)
    (msg previous : Bitmessage) (h0 : msg.uid ≠ 0)
    (hbm : bmsgByUID box mbox msg.uid = some previous) :
    saveBitmessage box mbox msg =
      if previous.uid ≠ msg.uid then ⟨some .invalidUID, msg, box, mbox⟩
      else if previous.dateReceived ≠ msg.dateReceived then
        ⟨some .immutableField, msg, box, mbox⟩
      else
        match deleteMessage mbox msg.uid with
        | .error e => ⟨some (.store e), msg, box, mbox⟩
        | .ok mbox₁ => saveBitmessageCont box mbox₁ msg := by
  unfold saveBitmessage
  rw [if_pos h0, hbm]

theorem saveBitmessageCont_ok (box : MailboxState) (mbox : StoreMailbox)
    (msg : Bitmessage) (newUID : Nat) (mbox₂ : StoreMailbox)
    (hins : insertMessage mbox (serializeBm msg) msg.uid msg.encoding
      = .ok (newUID, mbox₂)) :
    saveBitmessageCont box mbox msg =
      match refresh box mbox₂ with
      | .error e => ⟨some e, { msg with uid := newUID }, box, mbox₂⟩
      | .ok box₂ => ⟨none, { msg with uid := newUID }, box₂, mbox₂⟩ := by
  unfold saveBitmessageCont
  rw [hins]

/-- Claim C4: for a message already carrying a nonzero uid,
`SaveBitmessage` (a) fails InvalidSequence when no entry is stored at
that uid; (b) fails ImmutableFieldViolation when the stored version's
received date differs from the message's; (c) otherwise — stored
version present, same received date — it succeeds: the old version is
erased, the new version is inserted at the id the store assigns (the
message's uid field is updated to it), and the operation ends with a
`Refresh` whose result is the returned cache. -/
theorem saveBitmessage_update_path (box : MailboxState) (mbox : StoreMailbox)
    (msg : Bitmessage) (h0 : msg.uid ≠ 0) :
    (lookupEntry mbox.entries msg.uid = none →
      (saveBitmessage box mbox msg).err = some .invalidSequence)
    ∧ (∀ prev : Bitmessage,
        lookupEntry mbox.entries msg.uid = some ⟨msg.uid, 2, serializeBm prev⟩ →
        msg.uid < mbox.nextID →
        prev.dateReceived ≠ msg.dateReceived →
        (saveBitmessage box mbox msg).err = some .immutableField)
    ∧ (∀ prev : Bitmessage,
        lookupEntry mbox.entries msg.uid = some ⟨msg.uid, 2, serializeBm prev⟩ →
        msg.uid < mbox.nextID →
        prev.dateReceived = msg.dateReceived →
        (mbox.entries.map Entry.id).Nodup →
        (∀ e ∈ mbox.entries, e.suffix = 2 → (DecodeBitmessage e.payload).isSome) →
        (saveBitmessage box mbox msg).err = none
        ∧ (saveBitmessage box mbox msg).msg.uid = msg.uid
        ∧ (saveBitmessage box mbox msg).mbox.entries =
            insertEntry (mbox.entries.eraseP (fun e => e.id = msg.uid))
              ⟨msg.uid, msg.encoding, serializeBm msg⟩
        ∧ refresh box (saveBitmessage box mbox msg).mbox =
            .ok (saveBitmessage box mbox msg).box) := by
  refine ⟨?_, ?_, ?_⟩
  · intro hlk
    have hbm : bmsgByUID box mbox msg.uid = none := by
      unfold bmsgByUID getMessage
      by_cases hg : msg.uid = 0 ∨ mbox.nextID ≤ msg.uid
      · rw [if_pos hg]
      · rw [if_neg hg, hlk]
    unfold saveBitmessage
    rw [if_pos h0, hbm]
  · intro prev hlk hlt hdne
    have hguard : ¬(msg.uid = 0 ∨ mbox.nextID ≤ msg.uid) := by omega
    have hget : getMessage mbox msg.uid = .ok (2, serializeBm prev) := by
      unfold getMessage
      rw [if_neg hguard, hlk]
    have hbm : bmsgByUID box mbox msg.uid
        = some { prev with
            uid := msg.uid
            sequenceNumber := GetSequenceNumber box.uids msg.uid } := by
      unfold bmsgByUID
      rw [hget]
      rfl
    rw [saveBitmessage_some box mbox msg _ h0 hbm]
    rw [if_neg (fun hh => hh rfl), if_pos hdne]
  · intro prev hlk hlt hdate hnd hdec
    have hguard : ¬(msg.uid = 0 ∨ mbox.nextID ≤ msg.uid) := by omega
    have hget : getMessage mbox msg.uid = .ok (2, serializeBm prev) := by
      unfold getMessage
      rw [if_neg hguard, hlk]
    have hbm : bmsgByUID box mbox msg.uid
        = some { prev with
            uid := msg.uid
            sequenceNumber := GetSequenceNumber box.uids msg.uid } := by
      unfold bmsgByUID
      rw [hget]
      rfl
    have hdel : deleteMessage mbox msg.uid
        = .ok ⟨mbox.entries.eraseP (fun e => e.id = msg.uid), mbox.nextID⟩ := by
      unfold deleteMessage
      rw [if_neg hguard, hlk]
    have hins : insertMessage ⟨mbox.entries.eraseP (fun e => e.id = msg.uid), mbox.nextID⟩
        (serializeBm msg) msg.uid msg.encoding
        = .ok (msg.uid,
            ⟨insertEntry (mbox.entries.eraseP (fun e => e.id = msg.uid))
              ⟨msg.uid, msg.encoding, serializeBm msg⟩, mbox.nextID⟩) := by
      unfold insertMessage
      rw [if_neg h0, if_neg (by omega : ¬mbox.nextID ≤ msg.uid),
        lookupEntry_eraseP_self msg.uid mbox.entries hnd]
    have hdec₂ : ∀ e ∈ insertEntry (mbox.entries.eraseP (fun e => e.id = msg.uid))
        ⟨msg.uid, msg.encoding, serializeBm msg⟩,
        e.suffix = 2 → (DecodeBitmessage e.payload).isSome := by
      intro x hx hsx
      rcases mem_insertEntry x ⟨msg.uid, msg.encoding, serializeBm msg⟩ _ hx with hm | rfl
      · exact hdec x (List.Sublist.mem hm (List.eraseP_sublist mbox.entries)) hsx
      · rfl
    obtain ⟨bref, hbref⟩ := refresh_ok_of_decodable box
      ⟨insertEntry (mbox.entries.eraseP (fun e => e.id = msg.uid))
        ⟨msg.uid, msg.encoding, serializeBm msg⟩, mbox.nextID⟩ hdec₂
    rw [saveBitmessage_some box mbox msg _ h0 hbm]
    rw [if_neg (fun hh => hh rfl), if_neg (fun hh => hh hdate)]
    simp only [hdel]
    rw [saveBitmessageCont_ok box _ msg msg.uid _ hins]
    simp only [hbref]
    exact ⟨trivial, trivial, trivial, trivial⟩

/-- Witness for C4: the three branches at concrete folders — a missing
uid gives InvalidSequence, a changed received date gives
ImmutableFieldViolation, and a proper update succeeds and refreshes. -/
theorem saveBitmessage_update_path_witness :
    (saveBitmessage ⟨[], 0, 0, 0, 0⟩ ⟨[], 1⟩ ⟨1, 0, 0, 5, [], false, 2⟩).err
        = some .invalidSequence
    ∧ (saveBitmessage ⟨[], 0, 0, 0, 0⟩
        ⟨[⟨1, 2, .good ⟨1, 0, 0, 5, [], false, 2⟩⟩], 2⟩ ⟨1, 0, 0, 6, [], false, 2⟩).err
        = some .immutableField
    ∧ ((saveBitmessage ⟨[], 0, 0, 0, 0⟩
        ⟨[⟨1, 2, .good ⟨1, 0, 0, 5, [], false, 2⟩⟩], 2⟩ ⟨1, 0, 0, 5, [3], true, 2⟩).err
        = none
      ∧ (saveBitmessage ⟨[], 0, 0, 0, 0⟩
          ⟨[⟨1, 2, .good ⟨1, 0, 0, 5, [], false, 2⟩⟩], 2⟩ ⟨1, 0, 0, 5, [3], true, 2⟩).msg.uid
        = 1) :=
  ⟨(saveBitmessage_update_path ⟨[], 0, 0, 0, 0⟩ ⟨[], 1⟩ ⟨1, 0, 0, 5, [], false, 2⟩
      (by decide)).1 (by decide),
   (saveBitmessage_update_path ⟨[], 0, 0, 0, 0⟩
      ⟨[⟨1, 2, .good ⟨1, 0, 0, 5, [], false, 2⟩⟩], 2⟩ ⟨1, 0, 0, 6, [], false, 2⟩
      (by decide)).2.1 ⟨1, 0, 0, 5, [], false, 2⟩ (by decide) (by decide) (by decide),
   ((saveBitmessage_update_path ⟨[], 0, 0, 0, 0⟩
      ⟨[⟨1, 2, .good ⟨1, 0, 0, 5, [], false, 2⟩⟩], 2⟩ ⟨1, 0, 0, 5, [3], true, 2⟩
      (by decide)).2.2 ⟨1, 0, 0, 5, [], false, 2⟩ (by decide) (by decide) (by decide)
      (by decide) (by decide)).1,
   ((saveBitmessage_update_path ⟨[], 0, 0, 0, 0⟩
      ⟨[⟨1, 2, .good ⟨1, 0, 0, 5, [], false, 2⟩⟩], 2⟩ ⟨1, 0, 0, 5, [3], true, 2⟩
      (by decide)).2.2 ⟨1, 0, 0, 5, [], false, 2⟩ (by decide) (by decide) (by decide)
      (by decide) (by decide)).2.1⟩

theorem saveBitmessageCont_msg_shape (box : MailboxState) (mbox : StoreMailbox)
    (msg : Bitmessage) :
    ∃ u, (saveBitmessageCont box mbox msg).msg = { msg with uid := u } := by
  rcases hins : insertMessage mbox (serializeBm msg) msg.uid msg.encoding
    with e | ⟨newUID, mbox₂⟩
  · refine ⟨msg.uid, ?_⟩
    unfold saveBitmessageCont
    rw [hins]
  · rw [saveBitmessageCont_ok box mbox msg newUID mbox₂ hins]
    rcases href : refresh box mbox₂ with e2 | b
    · exact ⟨newUID, rfl⟩
    · exact ⟨newUID, rfl⟩

theorem saveBitmessage_msg_shape (box : MailboxState) (mbox : StoreMailbox)
    (msg : Bitmessage) :
    ∃ u, (saveBitmessage box mbox msg).msg = { msg with uid := u } := by
  by_cases h0 : msg.uid ≠ 0
  · rcases hbm : bmsgByUID box mbox msg.uid with _ | previous
    · refine ⟨msg.uid, ?_⟩
      unfold saveBitmessage
      rw [if_pos h0, hbm]
    · rw [saveBitmessage_some box mbox msg previous h0 hbm]
      by_cases hu : previous.uid ≠ msg.uid
      · rw [if_pos hu]
        exact ⟨msg.uid, rfl⟩
      · rw [if_neg hu]
        by_cases hd : previous.dateReceived ≠ msg.dateReceived
        · rw [if_pos hd]
          exact ⟨msg.uid, rfl⟩
        · rw [if_neg hd]
          rcases hdm : deleteMessage mbox msg.uid with e | mbox₁
          · exact ⟨msg.uid, rfl⟩
          · exact saveBitmessageCont_msg_shape box mbox₁ msg
  · unfold saveBitmessage
    rw [if_neg h0]
    exact saveBitmessageCont_msg_shape box mbox msg

theorem saveBitmessage_msg_fields (box : MailboxState) (mbox : StoreMailbox)
    (msg : Bitmessage) :
    (saveBitmessage box mbox msg).msg.ackReceived = msg.ackReceived
    ∧ (saveBitmessage box mbox msg).msg.ack = msg.ack := by
  obtain ⟨u, hu⟩ := saveBitmessage_msg_shape box mbox msg
  rw [hu]
  exact ⟨rfl, rfl⟩

/-- Claim C9: when the `ReceiveAck` scan finds a stored entry whose ack
bytes equal the payload, the entry — with its ack-received flag set — is
returned even when persisting it through `SaveBitmessage` fails; the
persistence error is discarded (the returned triple carries no error
channel at all). -/
theorem receiveAck_discards_save_error (box : MailboxState) (mbox : StoreMailbox)
    (ack : List Nat) (m : Bitmessage) (e : MboxErr)
    (hscan : ackScan mbox ack = some m)
    (hfail : (saveBitmessage box mbox { m with ackReceived := true }).err = some e) :
    (receiveAck box mbox ack).1
      = some ((saveBitmessage box mbox { m with ackReceived := true }).msg)
    ∧ (saveBitmessage box mbox { m with ackReceived := true }).msg.ackReceived = true
    ∧ (saveBitmessage box mbox { m with ackReceived := true }).msg.ack = m.ack := by
  refine ⟨?_, ?_, ?_⟩
  · unfold receiveAck
    rw [hscan]
  · rw [(saveBitmessage_msg_fields box mbox _).1]
  · exact (saveBitmessage_msg_fields box mbox _).2

/-- Witness for C9: the folder's first entry matches the ack bytes and
the second entry is undecodable, which makes the `Refresh` at the end of
the persisting `SaveBitmessage` fail; `ReceiveAck` still returns the
matched entry with ack-received set. -/
theorem receiveAck_discards_save_error_witness :
    (receiveAck ⟨[1, 2], 0, 0, 3, 1⟩
        ⟨[⟨1, 2, .good ⟨1, 0, 0, 5, [7], false, 2⟩⟩, ⟨2, 2, .bad 0⟩], 3⟩ [7]).1
      = some ((saveBitmessage ⟨[1, 2], 0, 0, 3, 1⟩
          ⟨[⟨1, 2, .good ⟨1, 0, 0, 5, [7], false, 2⟩⟩, ⟨2, 2, .bad 0⟩], 3⟩
          { (⟨1, 0, 0, 5, [7], false, 2⟩ : Bitmessage) with ackReceived := true }).msg)
    ∧ (saveBitmessage ⟨[1, 2], 0, 0, 3, 1⟩
        ⟨[⟨1, 2, .good ⟨1, 0, 0, 5, [7], false, 2⟩⟩, ⟨2, 2, .bad 0⟩], 3⟩
        { (⟨1, 0, 0, 5, [7], false, 2⟩ : Bitmessage) with ackReceived := true }).msg.ackReceived
      = true
    ∧ (saveBitmessage ⟨[1, 2], 0, 0, 3, 1⟩
        ⟨[⟨1, 2, .good ⟨1, 0, 0, 5, [7], false, 2⟩⟩, ⟨2, 2, .bad 0⟩], 3⟩
        { (⟨1, 0, 0, 5, [7], false, 2⟩ : Bitmessage) with ackReceived := true }).msg.ack
      = (⟨1, 0, 0, 5, [7], false, 2⟩ : Bitmessage).ack :=
  receiveAck_discards_save_error ⟨[1, 2], 0, 0, 3, 1⟩
    ⟨[⟨1, 2, .good ⟨1, 0, 0, 5, [7], false, 2⟩⟩, ⟨2, 2, .bad 0⟩], 3⟩ [7]
    ⟨1, 0, 0, 5, [7], false, 2⟩ (.decodeFailed 2) (by decide) (by decide)

end Bmclient
